/-
Verification of the cplib integration-test harness (`tests/run_test_case.py`)
and the include-flattening preprocessor (`scripts/embed.py`).

The Python code is shallowly embedded as executable Lean definitions:
  * JSON documents (the values produced by Python `json.load`) become the
    inductive `Json`; Python floats are modelled as rationals, which is exact
    for every value appearing in the fixtures under study.
  * `compare_json` is translated clause by clause; the Python function returns
    a pair `(bool, reason-string)` where the bool is `True` exactly when the
    reason is `""`, so it is embedded as `Option Reason` (`none` = match).
    Reason strings are abstracted to the inductive `Reason`, one constructor
    per `f"-"`message shape of the source.
  * `run_simple_test` / `run_interactive_test` perform I/O; the file system,
    the JSON parser and the process launch are passed in as oracle functions,
    and each `sys.exit` site of the source becomes one constructor of
    `Outcome`.
  * `embed.py`'s `process_file` recursion is embedded with explicit state
    passing for the mutated `processed_files` set and a fuel parameter; a
    stabilisation theorem shows the fuel is irrelevant once it exceeds the
    number of files, which is the termination statement.
-/

import Mathlib

/-! ## JSON documents and Python equality -/

/-- A decoded JSON document, as produced by Python `json.load`: dictionaries
(association lists, keys unique in any value a real parse produces), lists,
strings, ints, floats (modelled as rationals) and booleans, plus `None`. -/
inductive Json where
  | obj (fields : List (String × Json))
  | arr (items : List Json)
  | str (s : String)
  | int (n : Int)
  | float (q : Rat)
  | bool (b : Bool)
  | null

/-- Python numeric coercion: `bool` is a subtype of `int` in Python, so
`True == 1` and `1 == 1.0`; strings, `None` and containers have no numeric
value. -/
def pyNum : Json → Option Rat
  | .int n => some (n : Rat)
  | .float q => some q
  | .bool b => some (if b then 1 else 0)
  | _ => none

/-- Python `==` restricted to the scalar-expected branch of `compare_json`
(the `else` branch of the source, reached when `expected` is not a dict and
not a list): strings compare as text, `None` only equals `None`, and numeric
values (ints, floats, bools) compare by numeric value. Any cross-kind pair
outside these rules is unequal, exactly as in Python. -/
def scalarPyEq : Json → Json → Bool
  | .str s, .str t => s == t
  | .null, .null => true
  | e, a =>
    match pyNum e, pyNum a with
    | some p, some q => p == q
    | _, _ => false

/-- Dictionary lookup (`key in actual` / `actual[key]`): first binding of the
key in the association list. -/
def lookupKey (k : String) : List (String × Json) → Option Json
  | [] => none
  | (k2, v) :: rest => if k2 == k then some v else lookupKey k rest

/-- Failure reasons of `compare_json`, one constructor per message shape of
the source (`Type mismatch: expected dict/list`, `Missing key`,
`Mismatch at key`, `List length mismatch`, `Mismatch at index`,
`Value mismatch`). -/
inductive Reason where
  | typeMismatchDict (actual : Json)
  | typeMismatchList (actual : Json)
  | missingKey (k : String)
  | atKey (k : String) (r : Reason)
  | lengthMismatch (expected actual : Nat)
  | atIndex (i : Nat) (r : Reason)
  | valueMismatch (expected actual : Json)

mutual

/-- Embedding of `compare_json(expected, actual)` from
`tests/run_test_case.py`: `none` is the source's `(True, "")`, `some r` its
`(False, reason)`. Fields present only in `actual` are ignored. -/
def compare_json : Json → Json → Option Reason
  | .obj efields, .obj afields => compareFields efields afields
  | .obj _, a => some (.typeMismatchDict a)
  | .arr eitems, .arr aitems =>
    if eitems.length ≠ aitems.length then
      some (.lengthMismatch eitems.length aitems.length)
    else
      compareItems 0 eitems aitems
  | .arr _, a => some (.typeMismatchList a)
  | e, a => if scalarPyEq e a then none else some (.valueMismatch e a)

/-- The `for key, value in expected.items()` loop of `compare_json`. -/
def compareFields : List (String × Json) → List (String × Json) → Option Reason
  | [], _ => none
  | (k, v) :: rest, afields =>
    match lookupKey k afields with
    | none => some (.missingKey k)
    | some av =>
      match compare_json v av with
      | none => compareFields rest afields
      | some r => some (.atKey k r)

/-- The `for i, item in enumerate(expected)` loop of `compare_json`; only
entered when the lengths agree. -/
def compareItems : Nat → List Json → List Json → Option Reason
  | _, [], _ => none
  | _, _ :: _, [] => none
  | i, e :: erest, a :: arest =>
    match compare_json e a with
    | none => compareItems (i + 1) erest arest
    | some r => some (.atIndex i r)

end

/-! ## Well-formed documents and the extends-with-extra-keys relation -/

/-- `true` on the keys of an association list with no key repeated: the shape
every dictionary produced by Python `json.load` has. -/
def nodupKeys : List (String × Json) → Bool
  | [] => true
  | (k, _) :: rest => !(rest.any (fun kv => kv.1 == k)) && nodupKeys rest

mutual

/-- A well-formed structured record: every mapping at every depth has unique
keys (the data-model invariant of JSON documents). -/
def wfJson : Json → Bool
  | .obj fields => nodupKeys fields && wfFields fields
  | .arr items => wfItems items
  | _ => true

/-- `wfJson` on every value of a field list. -/
def wfFields : List (String × Json) → Bool
  | [] => true
  | (_, v) :: rest => wfJson v && wfFields rest

/-- `wfJson` on every element of an item list. -/
def wfItems : List Json → Bool
  | [] => true
  | v :: rest => wfJson v && wfItems rest

end

mutual

/-- `jsonExtends d d2` holds when `d2` is obtained from `d` by inserting
arbitrary additional mapping keys at any depth: mappings keep every original
key (with a recursively extended value) and may gain new ones, sequences keep
their length with elements extended pointwise, scalars are unchanged. -/
def jsonExtends : Json → Json → Bool
  | .obj efields, .obj afields => fieldsExtend efields afields
  | .arr eitems, .arr aitems => itemsExtend eitems aitems
  | .str s, .str t => s == t
  | .int m, .int n => m == n
  | .float p, .float q => p == q
  | .bool b, .bool c => b == c
  | .null, .null => true
  | _, _ => false

/-- Every original field is present in the extended mapping, with an
extended value. -/
def fieldsExtend : List (String × Json) → List (String × Json) → Bool
  | [], _ => true
  | (k, v) :: rest, afields =>
    (match lookupKey k afields with
     | some v2 => jsonExtends v v2
     | none => false) && fieldsExtend rest afields

/-- Pointwise extension of sequences of equal length. -/
def itemsExtend : List Json → List Json → Bool
  | [], [] => true
  | e :: erest, a :: arest => jsonExtends e a && itemsExtend erest arest
  | _, _ => false

end

/-! ## The test runner (`tests/run_test_case.py`)

File reads (`open` + `read`), JSON parses (`json.load` / `json.loads`) and
process execution (`subprocess.run`) are external effects; they are passed to
the embedded runner as oracle functions.  Each `sys.exit` site of the source
becomes one constructor of `Outcome`. -/

/-- The result of `subprocess.run` with `capture_output=True`: decoded stdout
and stderr texts plus the exit status of the child. -/
structure ProcResult where
  stdout : String
  stderr : String
  returncode : Int

/-- One constructor per exit site of `run_simple_test` /
`run_interactive_test`:
  * `stdinMissing` — stdin fixture file not found (exit 1);
  * `launchFailed` — `FileNotFoundError` from process spawn (exit 1);
  * `expectedStdoutMissing` — expected-stdout fixture not found (exit 1);
  * `stdoutMismatch` — captured stdout differed from the fixture (exit 1);
  * `expectedStderrBad` — expected-JSON fixture missing or unparsable, the
    source's combined `(FileNotFoundError, json.JSONDecodeError)` handler
    (exit 1);
  * `stderrNotJson` — captured stderr was not valid JSON (exit 1);
  * `stderrMismatch` — structural comparison failed, carrying the reason
    (exit 1);
  * `passed` — the `print("PASSED")` site (exit 0). -/
inductive Outcome where
  | stdinMissing
  | launchFailed
  | expectedStdoutMissing
  | stdoutMismatch (expected actual : String)
  | expectedStderrBad
  | stderrNotJson
  | stderrMismatch (r : Reason)
  | passed

/-- The argument of `sys.exit` at the exit site producing each outcome. -/
def exitCode : Outcome → Nat
  | .stdinMissing => 1
  | .launchFailed => 1
  | .expectedStdoutMissing => 1
  | .stdoutMismatch _ _ => 1
  | .expectedStderrBad => 1
  | .stderrNotJson => 1
  | .stderrMismatch _ => 1
  | .passed => 0

/-- Whether the exit site producing the outcome prints `PASSED`. -/
def printsPassed : Outcome → Bool
  | .passed => true
  | _ => false

/-- The stdin-fixture phase of `run_simple_test`: no `--stdin` flag passes
`None` through; a named file is read, `FileNotFoundError` exiting with
status 1. -/
def readStdin (fileRead : String → Option String) :
    Option String → Except Outcome (Option String)
  | none => .ok none
  | some p =>
    match fileRead p with
    | none => .error .stdinMissing
    | some content => .ok (some content)

/-- The `Check stdout if required` phase of `run_simple_test`: read the
fixture (missing file exits 1), then compare the captured stdout to it by
the source's literal `result.stdout != expected_stdout`. -/
def checkStdout (fileRead : String → Option String) (captured : String) :
    Option String → Except Outcome Unit
  | none => .ok ()
  | some p =>
    match fileRead p with
    | none => .error .expectedStdoutMissing
    | some expected =>
      if captured ≠ expected then .error (.stdoutMismatch expected captured)
      else .ok ()

/-- The `Check stderr if required` phase, shared verbatim (up to message
text) between `run_simple_test` and `run_interactive_test`: read and parse
the expected-JSON fixture (one combined failure exit), parse the captured
stderr, and run `compare_json`. -/
def checkStderr (fileRead : String → Option String)
    (parse : String → Option Json) (captured : String) :
    Option String → Except Outcome Unit
  | none => .ok ()
  | some p =>
    match fileRead p with
    | none => .error .expectedStderrBad
    | some text =>
      match parse text with
      | none => .error .expectedStderrBad
      | some expectedJson =>
        match parse captured with
        | none => .error .stderrNotJson
        | some actualJson =>
          match compare_json expectedJson actualJson with
          | none => .ok ()
          | some r => .error (.stderrMismatch r)

/-- Embedding of `run_simple_test(command, stdin_path, expected_stdout_path,
expected_stderr_path)`.  `execute` is the `subprocess.run` oracle: `none`
models `FileNotFoundError` on spawn, otherwise a function from the stdin
content to the captured result.  The phases run in source order and the
first failing one determines the outcome. -/
def run_simple_test (fileRead : String → Option String)
    (parse : String → Option Json)
    (execute : Option (Option String → ProcResult))
    (stdin_path expected_stdout_path expected_stderr_path : Option String) :
    Outcome :=
  match readStdin fileRead stdin_path with
  | .error o => o
  | .ok stdinContent =>
    match execute with
    | none => .launchFailed
    | some run =>
      let result := run stdinContent
      match checkStdout fileRead result.stdout expected_stdout_path with
      | .error o => o
      | .ok _ =>
        match checkStderr fileRead parse result.stderr expected_stderr_path with
        | .error o => o
        | .ok _ => .passed

/-- Embedding of `run_interactive_test(interactor_cmd, solution_cmd,
expected_stderr_path)`.  The byte exchange between the two processes is
external; what the harness observes is whether both spawns succeeded
(`judgeLaunches`, `solutionLaunches` — a failed spawn raises
`FileNotFoundError` inside the `try` block, before any comparison) and the
drained interactor stderr text. -/
def run_interactive_test (fileRead : String → Option String)
    (parse : String → Option Json)
    (judgeLaunches solutionLaunches : Bool) (interactorStderr : String)
    (expected_stderr_path : Option String) : Outcome :=
  if judgeLaunches && solutionLaunches then
    match checkStderr fileRead parse interactorStderr expected_stderr_path with
    | .ok _ => .passed
    | .error o => o
  else
    .launchFailed

/-! ## The include-flattening preprocessor (`scripts/embed.py`)

Files are drawn from a finite universe `Fin n`; `resolve` models the search
of a header name through the include paths (`none` when no candidate
exists).  A source line is modelled after the classification the source
performs with its regexes, applied after the IWYU-pragma substitution (the
source strips those pragmas before looking for an include):
`ignoreStart` / `ignoreEnd` match the `cplib_embed_ignore` markers, an
`includeLine` carries the header name and the (pragma-stripped) raw text of
the line, and every other line is `plain`.  The Python `processed_files` set
is threaded explicitly as a list; recursion carries a fuel parameter and the
stabilisation theorem below shows any fuel above the number of files gives
the same answer. -/

/-- One classified line of a source file. -/
inductive SrcLine where
  | plain (text : String)
  | ignoreStart
  | ignoreEnd
  | includeLine (header : String) (raw : String)

/-- The `IGNORE_HEADERS` set of `embed.py`: these includes are kept
verbatim. -/
def ignoreHeaders : List String := ["regex.h", "fmt/base.h", "fmt/core.h"]

/-- The `// --- Start embedded: name ---` marker emitted before an inlined
file. -/
def startMarker (header : String) : String :=
  "// --- Start embedded: " ++ header ++ " ---"

/-- The `// --- End embedded: name ---` marker emitted after an inlined
file. -/
def endMarker (header : String) : String :=
  "// --- End embedded: " ++ header ++ " ---"

/-- One iteration of the `for line in content.splitlines()` loop of
`process_file`.  The accumulator is (output lines so far, `in_ignore_block`,
`processed_files`); `rec` is the recursive call used for a resolved
include. -/
def embedStep {n : Nat} (resolve : String → Option (Fin n))
    (rec : Fin n → List (Fin n) → List String × List (Fin n))
    (acc : List String × Bool × List (Fin n)) (line : SrcLine) :
    List String × Bool × List (Fin n) :=
  match line with
  | .ignoreStart => (acc.1, true, acc.2.2)
  | .ignoreEnd => (acc.1, false, acc.2.2)
  | .plain text =>
    if acc.2.1 then acc else (acc.1 ++ [text], acc.2.1, acc.2.2)
  | .includeLine header raw =>
    if acc.2.1 then acc
    else if header ∈ ignoreHeaders then (acc.1 ++ [raw], acc.2.1, acc.2.2)
    else
      match resolve header with
      | some f =>
        let sub := rec f acc.2.2
        (acc.1 ++ [startMarker header] ++ sub.1 ++ [endMarker header],
         acc.2.1, sub.2)
      | none => (acc.1 ++ [raw], acc.2.1, acc.2.2)

/-- Embedding of `process_file(file_path, include_paths, processed_files)`:
returns the produced output lines and the grown processed set.  A file
already in the set contributes nothing (the source's `return ""`, acting
like `#pragma once`); otherwise the file is recorded and its lines are
walked with `embedStep`.  The fuel bounds the include-nesting depth; each
nested call is made on a strictly larger processed set, so any fuel larger
than the number of files is enough (proved below). -/
def process_file {n : Nat} (resolve : String → Option (Fin n))
    (contents : Fin n → List SrcLine) :
    Nat → Fin n → List (Fin n) → List String × List (Fin n)
  | 0, _, processed => ([], processed)
  | fuel + 1, f, processed =>
    if f ∈ processed then ([], processed)
    else
      let r := (contents f).foldl
        (embedStep resolve (process_file resolve contents fuel))
        ([], false, f :: processed)
      (r.1, r.2.2)

/-! ## Helper lemmas about the comparator -/

/-- `compareFields` succeeds when every expected field has a matching
binding in the actual dictionary. -/
theorem compareFields_none_of (afields : List (String × Json)) :
    ∀ sub : List (String × Json),
    (∀ kv ∈ sub, ∃ v2, lookupKey kv.1 afields = some v2 ∧
      compare_json kv.2 v2 = none) →
    compareFields sub afields = none := by
  intro sub
  induction sub with
  | nil => intro _; rfl
  | cons kv rest ih =>
    intro h
    obtain ⟨v2, hl, hc⟩ := h kv (List.mem_cons_self kv rest)
    obtain ⟨k, v⟩ := kv
    simp only [compareFields, hl, hc]
    exact ih fun kv2 hm => h kv2 (List.mem_cons_of_mem _ hm)

/-- For equally long lists, `compareItems` succeeds exactly when every
positionally paired couple of elements matches. -/
theorem compareItems_none_iff :
    ∀ (i : Nat) (eitems aitems : List Json),
    eitems.length = aitems.length →
    (compareItems i eitems aitems = none ↔
      ∀ p ∈ eitems.zip aitems, compare_json p.1 p.2 = none) := by
  intro i eitems
  induction eitems generalizing i with
  | nil =>
    intro aitems _
    simp [compareItems]
  | cons e erest ih =>
    intro aitems hlen
    cases aitems with
    | nil => simp at hlen
    | cons a arest =>
      simp only [List.length_cons, Nat.succ.injEq] at hlen
      simp only [compareItems, List.zip_cons_cons, List.mem_cons]
      cases hc : compare_json e a with
      | none =>
        rw [ih (i + 1) arest hlen]
        constructor
        · intro h p hp
          rcases hp with hp | hp
          · rw [hp]; exact hc
          · exact h p hp
        · intro h p hp
          exact h p (Or.inr hp)
      | some r =>
        simp only [Option.some.injEq]
        constructor
        · intro h; cases h
        · intro h
          have := h (e, a) (Or.inl rfl)
          simp only at this
          rw [hc] at this
          cases this

/-- In a dictionary with unique keys, every binding is found by lookup. -/
theorem lookupKey_of_nodup :
    ∀ (fields : List (String × Json)) (k : String) (v : Json),
    nodupKeys fields = true → (k, v) ∈ fields → lookupKey k fields = some v := by
  intro fields
  induction fields with
  | nil => intro k v _ hm; cases hm
  | cons kv rest ih =>
    intro k v hn hm
    obtain ⟨k2, v2⟩ := kv
    simp only [nodupKeys, Bool.and_eq_true, Bool.not_eq_true] at hn
    rcases List.mem_cons.mp hm with hm | hm
    · obtain ⟨hk, hv⟩ := Prod.mk.injEq .. ▸ hm
      simp [lookupKey, hk, hv]
    · have hk2 : (k2 == k) = false := by
        by_contra hne
        have hk2k : k2 = k := by
          cases hb : k2 == k with
          | false => exact absurd hb hne
          | true => exact eq_of_beq hb
        subst hk2k
        have : rest.any (fun kv => kv.1 == k2) = true :=
          List.any_eq_true.mpr ⟨(k2, v), hm, by simp⟩
        rw [this] at hn
        cases hn.1
      simp only [lookupKey, hk2, Bool.false_eq_true, if_false]
      exact ih k v hn.2 hm

/-- Values of a well-formed field list are well-formed. -/
theorem wfFields_mem :
    ∀ (fields : List (String × Json)) (k : String) (v : Json),
    wfFields fields = true → (k, v) ∈ fields → wfJson v = true := by
  intro fields
  induction fields with
  | nil => intro k v _ hm; cases hm
  | cons kv rest ih =>
    intro k v hw hm
    obtain ⟨k2, v2⟩ := kv
    simp only [wfFields, Bool.and_eq_true] at hw
    rcases List.mem_cons.mp hm with hm | hm
    · obtain ⟨_, hv⟩ := Prod.mk.injEq .. ▸ hm
      exact hv ▸ hw.1
    · exact ih k v hw.2 hm

/-- Elements of a well-formed item list are well-formed. -/
theorem wfItems_mem :
    ∀ (items : List Json) (v : Json),
    wfItems items = true → v ∈ items → wfJson v = true := by
  intro items
  induction items with
  | nil => intro v _ hm; cases hm
  | cons e rest ih =>
    intro v hw hm
    simp only [wfItems, Bool.and_eq_true] at hw
    rcases List.mem_cons.mp hm with hm | hm
    · exact hm ▸ hw.1
    · exact ih v hw.2 hm

/-- `compareItems` succeeds on a list compared with itself whenever every
element matches itself. -/
theorem compareItems_self :
    ∀ (i : Nat) (items : List Json),
    (∀ v ∈ items, compare_json v v = none) →
    compareItems i items items = none := by
  intro i items
  induction items generalizing i with
  | nil => intro _; rfl
  | cons e rest ih =>
    intro h
    have he := h e (List.mem_cons_self e rest)
    simp only [compareItems, he]
    exact ih (i + 1) fun v hm => h v (List.mem_cons_of_mem _ hm)

/-- Every scalar equals itself under the embedded Python equality. -/
theorem scalarPyEq_self :
    ∀ d : Json, (∀ fields, d ≠ .obj fields) → (∀ items, d ≠ .arr items) →
    scalarPyEq d d = true := by
  intro d hobj harr
  cases d with
  | obj fields => exact absurd rfl (hobj fields)
  | arr items => exact absurd rfl (harr items)
  | str s => simp [scalarPyEq]
  | int n => simp [scalarPyEq, pyNum]
  | float q => simp [scalarPyEq, pyNum]
  | bool b => simp [scalarPyEq, pyNum]
  | null => rfl

/-- Reflexivity of `compare_json` on well-formed documents: comparing a
document with itself succeeds. -/
theorem compare_json_self : ∀ d : Json, wfJson d = true → compare_json d d = none
  | .obj fields => fun h => by
    simp only [wfJson, Bool.and_eq_true] at h
    simp only [compare_json]
    exact compareFields_none_of fields fields fun kv hm => by
      obtain ⟨k, v⟩ := kv
      exact ⟨v, lookupKey_of_nodup fields k v h.1 hm,
        compare_json_self v (wfFields_mem fields k v h.2 hm)⟩
  | .arr items => fun h => by
    simp only [wfJson] at h
    have heq : compare_json (.arr items) (.arr items) = compareItems 0 items items := by
      simp [compare_json]
    rw [heq]
    exact compareItems_self 0 items fun v hm =>
      compare_json_self v (wfItems_mem items v h hm)
  | .str s => fun _ => by simp [compare_json, scalarPyEq]
  | .int n => fun _ => by simp [compare_json, scalarPyEq, pyNum]
  | .float q => fun _ => by simp [compare_json, scalarPyEq, pyNum]
  | .bool b => fun _ => by simp [compare_json, scalarPyEq, pyNum]
  | .null => fun _ => by simp [compare_json, scalarPyEq]
termination_by d => sizeOf d
decreasing_by
  all_goals
    simp_wf
    have h1 := List.sizeOf_lt_of_mem hm
    simp only [Prod.mk.sizeOf_spec] at h1
    omega

/-- Extended sequences have the same length. -/
theorem itemsExtend_length :
    ∀ eitems aitems : List Json, itemsExtend eitems aitems = true →
    eitems.length = aitems.length := by
  intro eitems
  induction eitems with
  | nil =>
    intro aitems h
    cases aitems with
    | nil => rfl
    | cons a arest => simp [itemsExtend] at h
  | cons e erest ih =>
    intro aitems h
    cases aitems with
    | nil => simp [itemsExtend] at h
    | cons a arest =>
      simp only [itemsExtend, Bool.and_eq_true] at h
      simp only [List.length_cons, ih arest h.2]

/-- Positionally paired elements of extended sequences are extensions. -/
theorem itemsExtend_zip :
    ∀ eitems aitems : List Json, itemsExtend eitems aitems = true →
    ∀ p ∈ eitems.zip aitems, jsonExtends p.1 p.2 = true := by
  intro eitems
  induction eitems with
  | nil => intro aitems _ p hp; cases hp
  | cons e erest ih =>
    intro aitems h p hp
    cases aitems with
    | nil => cases hp
    | cons a arest =>
      simp only [itemsExtend, Bool.and_eq_true] at h
      rcases List.mem_cons.mp hp with hp | hp
      · rw [hp]; exact h.1
      · exact ih arest h.2 p hp

/-- Every binding of the original dictionary is found, extended, in the
extended dictionary. -/
theorem fieldsExtend_mem :
    ∀ (efields afields : List (String × Json)) (k : String) (v : Json),
    fieldsExtend efields afields = true → (k, v) ∈ efields →
    ∃ v2, lookupKey k afields = some v2 ∧ jsonExtends v v2 = true := by
  intro efields
  induction efields with
  | nil => intro afields k v _ hm; cases hm
  | cons kv rest ih =>
    intro afields k v h hm
    obtain ⟨k2, v2⟩ := kv
    simp only [fieldsExtend, Bool.and_eq_true] at h
    rcases List.mem_cons.mp hm with hm | hm
    · obtain ⟨hk, hv⟩ := Prod.mk.injEq .. ▸ hm
      subst hk; subst hv
      cases hl : lookupKey k afields with
      | none => rw [hl] at h; cases h.1
      | some v3 =>
        rw [hl] at h
        exact ⟨v3, rfl, h.1⟩
    · exact ih afields k v h.2 hm

/-- Subset monotonicity of `compare_json`: a well-formed expected document
matches any actual document obtained from it by inserting additional mapping
keys at any depth. -/
theorem compare_json_of_extends :
    ∀ d d2 : Json, wfJson d = true → jsonExtends d d2 = true →
    compare_json d d2 = none
  | .obj efields, d2 => fun h hx => by
    cases d2 with
    | obj afields =>
      simp only [wfJson, Bool.and_eq_true] at h
      simp only [jsonExtends] at hx
      simp only [compare_json]
      exact compareFields_none_of afields efields fun kv hm => by
        obtain ⟨k, v⟩ := kv
        obtain ⟨v2, hl, he⟩ := fieldsExtend_mem efields afields k v hx hm
        exact ⟨v2, hl,
          compare_json_of_extends v v2 (wfFields_mem efields k v h.2 hm) he⟩
    | arr aitems => simp [jsonExtends] at hx
    | str s => simp [jsonExtends] at hx
    | int n => simp [jsonExtends] at hx
    | float q => simp [jsonExtends] at hx
    | bool b => simp [jsonExtends] at hx
    | null => simp [jsonExtends] at hx
  | .arr eitems, d2 => fun h hx => by
    cases d2 with
    | arr aitems =>
      simp only [wfJson] at h
      simp only [jsonExtends] at hx
      have hlen := itemsExtend_length eitems aitems hx
      have heq : compare_json (.arr eitems) (.arr aitems)
          = compareItems 0 eitems aitems := by
        simp [compare_json, hlen]
      rw [heq]
      rw [compareItems_none_iff 0 eitems aitems hlen]
      intro p hp
      have hpe := itemsExtend_zip eitems aitems hx p hp
      have hp1 : p.1 ∈ eitems := (List.of_mem_zip hp).1
      exact compare_json_of_extends p.1 p.2 (wfItems_mem eitems p.1 h hp1) hpe
    | obj afields => simp [jsonExtends] at hx
    | str s => simp [jsonExtends] at hx
    | int n => simp [jsonExtends] at hx
    | float q => simp [jsonExtends] at hx
    | bool b => simp [jsonExtends] at hx
    | null => simp [jsonExtends] at hx
  | .str s, d2 => fun _ hx => by
    cases d2 <;> simp_all [jsonExtends, compare_json, scalarPyEq]
  | .int n, d2 => fun _ hx => by
    cases d2 <;> simp_all [jsonExtends, compare_json, scalarPyEq, pyNum]
  | .float q, d2 => fun _ hx => by
    cases d2 <;> simp_all [jsonExtends, compare_json, scalarPyEq, pyNum]
  | .bool b, d2 => fun _ hx => by
    cases d2 <;> simp_all [jsonExtends, compare_json, scalarPyEq, pyNum]
  | .null, d2 => fun _ hx => by
    cases d2 <;> simp_all [jsonExtends, compare_json, scalarPyEq]
termination_by d _ => sizeOf d
decreasing_by
  all_goals
    simp_wf
    first
      | (have h1 := List.sizeOf_lt_of_mem hm
         simp only [Prod.mk.sizeOf_spec] at h1
         omega)
      | (have h1 := List.sizeOf_lt_of_mem hp1
         omega)

/-! ## Claim C1 -/

/-- C1 is false on the code: the standalone runner compares captured stdout
to the fixture with a plain `!=`, with no trailing-whitespace stripping.
At the concrete input of the claim — fixture text `"5\n"`, program printing
`"5"` — the run ends at the stdout-mismatch exit with status 1 instead of
passing. -/
theorem c1_counterexample :
    run_simple_test (fun p => if p == "expected.txt" then some "5\n" else none)
      (fun _ => none) (some fun _ => ⟨"5", "", 0⟩) none (some "expected.txt")
      none = .stdoutMismatch "5\n" "5" ∧
    exitCode (run_simple_test
      (fun p => if p == "expected.txt" then some "5\n" else none)
      (fun _ => none) (some fun _ => ⟨"5", "", 0⟩) none (some "expected.txt")
      none) = 1 :=
  ⟨rfl, rfl⟩

/-- C1 (amended): the captured stdout is compared to the expected-stdout
fixture by exact literal equality with no normalization at all: the check
passes exactly when the two strings are identical, so a pair differing only
in trailing whitespace (expected `"5\n"`, actual `"5"`) fails, and an
interior difference (expected `"5\n"`, actual `"05\n"`) fails as well. -/
theorem c1_literal_stdout :
    (∀ (fileRead : String → Option String) (captured p expected : String),
      fileRead p = some expected →
      (checkStdout fileRead captured (some p) = .ok () ↔ captured = expected)) ∧
    run_simple_test (fun p => if p == "expected.txt" then some "5\n" else none)
      (fun _ => none) (some fun _ => ⟨"05\n", "", 0⟩) none
      (some "expected.txt") none = .stdoutMismatch "5\n" "05\n" := by
  refine ⟨?_, rfl⟩
  intro fileRead captured p expected h
  simp only [checkStdout, h]
  by_cases hc : captured = expected
  · simp [hc]
  · simp [hc]

/-- Witness for `c1_literal_stdout` at a concrete input. -/
theorem c1_witness :
    (fun _ : String => some "5\n") "x" = some "5\n" ∧
    ((checkStdout (fun _ => some "5\n") "5\n" (some "x") = .ok ()) ↔
      "5\n" = ("5\n" : String)) :=
  ⟨rfl, c1_literal_stdout.1 (fun _ => some "5\n") "5\n" "x" "5\n" rfl⟩

/-! ## Claim C2 -/

/-- C2: the structural comparison is reflexive on every well-formed
structured document (mapping keys unique at every depth, the shape every
Python `json.load` result has), and monotone under insertion of extra
mapping keys at any depth: keys present only in the actual document are
ignored. -/
theorem c2_refl_and_extra_keys :
    ∀ d d2 : Json, wfJson d = true →
    compare_json d d = none ∧
    (jsonExtends d d2 = true → compare_json d d2 = none) :=
  fun d d2 h =>
    ⟨compare_json_self d h, fun hx => compare_json_of_extends d d2 h hx⟩

/-- Witness for `c2_refl_and_extra_keys`: the spec's end-to-end example,
`{"verdict": "OK", "score": 100}` against the same document with an extra
`"extra"` key. -/
theorem c2_witness :
    wfJson (.obj [("verdict", .str "OK"), ("score", .int 100)]) = true ∧
    compare_json (.obj [("verdict", .str "OK"), ("score", .int 100)])
      (.obj [("verdict", .str "OK"), ("score", .int 100)]) = none ∧
    (jsonExtends (.obj [("verdict", .str "OK"), ("score", .int 100)])
       (.obj [("verdict", .str "OK"), ("score", .int 100),
              ("extra", .str "debug")]) = true →
     compare_json (.obj [("verdict", .str "OK"), ("score", .int 100)])
       (.obj [("verdict", .str "OK"), ("score", .int 100),
              ("extra", .str "debug")]) = none) :=
  ⟨rfl,
   (c2_refl_and_extra_keys
     (.obj [("verdict", .str "OK"), ("score", .int 100)])
     (.obj [("verdict", .str "OK"), ("score", .int 100),
            ("extra", .str "debug")]) rfl).1,
   (c2_refl_and_extra_keys
     (.obj [("verdict", .str "OK"), ("score", .int 100)])
     (.obj [("verdict", .str "OK"), ("score", .int 100),
            ("extra", .str "debug")]) rfl).2⟩

/-! ## Claim C3 -/

/-- C3: scalar comparison is type-aware across text and numbers: a textual
expected value never matches a numeric actual value (int, float or bool),
whatever its printed form, and in particular
`compare({"a": 1}, {"a": "1"})` fails with a value mismatch at key `a`. -/
theorem c3_type_aware_scalars :
    (∀ (s : String) (a : Json), (pyNum a).isSome = true →
      compare_json (.str s) a ≠ none) ∧
    compare_json (.obj [("a", .int 1)]) (.obj [("a", .str "1")]) =
      some (.atKey "a" (.valueMismatch (.int 1) (.str "1"))) := by
  refine ⟨?_, rfl⟩
  intro s a h
  cases a <;> simp_all [compare_json, scalarPyEq, pyNum]

/-- Witness for `c3_type_aware_scalars` at the numeric actual `1`. -/
theorem c3_witness :
    (pyNum (Json.int 1)).isSome = true ∧
    compare_json (.str "1") (.int 1) ≠ none :=
  ⟨rfl, c3_type_aware_scalars.1 "1" (.int 1) rfl⟩

/-! ## Claim C4 -/

/-- C4: comparing sequences of different lengths fails with a length
mismatch whatever the elements are; for equal lengths the comparison
succeeds exactly when every positionally paired couple of elements matches
(no reordering, no best-match heuristics). -/
theorem c4_sequence_lengths :
    ∀ eitems aitems : List Json,
    (eitems.length ≠ aitems.length →
      compare_json (.arr eitems) (.arr aitems) =
        some (.lengthMismatch eitems.length aitems.length)) ∧
    (eitems.length = aitems.length →
      (compare_json (.arr eitems) (.arr aitems) = none ↔
        ∀ p ∈ eitems.zip aitems, compare_json p.1 p.2 = none)) := by
  intro eitems aitems
  constructor
  · intro h
    simp [compare_json, h]
  · intro h
    have heq : compare_json (.arr eitems) (.arr aitems)
        = compareItems 0 eitems aitems := by
      simp [compare_json, h]
    rw [heq]
    exact compareItems_none_iff 0 eitems aitems h

/-- Witness for `c4_sequence_lengths`: `[1]` against `[2, 3]` is a length
mismatch even though no element agrees, and `[1]` against `[1]` reduces to
the positional pair. -/
theorem c4_witness :
    ([Json.int 1].length ≠ [Json.int 2, Json.int 3].length ∧
      compare_json (.arr [.int 1]) (.arr [.int 2, .int 3]) =
        some (.lengthMismatch 1 2)) ∧
    ([Json.int 1].length = [Json.int 1].length ∧
      (compare_json (.arr [.int 1]) (.arr [.int 1]) = none ↔
        ∀ p ∈ [Json.int 1].zip [Json.int 1], compare_json p.1 p.2 = none)) :=
  ⟨⟨by decide, (c4_sequence_lengths [.int 1] [.int 2, .int 3]).1 (by decide)⟩,
   ⟨rfl, (c4_sequence_lengths [.int 1] [.int 1]).2 rfl⟩⟩

/-! ## Claim C5 -/

/-- C5: in standalone mode with both fixtures requested, the stdout
comparison is evaluated first and its failure determines the outcome no
matter what the diagnostic fixture or the captured stderr contain; a
diagnostic mismatch is only ever reported after the stdout check (if any)
succeeded.  Each failure exit is terminal: nothing after it runs. -/
theorem c5_stdout_before_stderr :
    ∀ (fileRead : String → Option String) (parse : String → Option Json)
      (run : Option String → ProcResult) (sp c so : Option String)
      (po pe exp : String) (se : Option String) (r : Reason),
    (readStdin fileRead sp = .ok c → fileRead po = some exp →
      (run c).stdout ≠ exp →
      run_simple_test fileRead parse (some run) sp (some po) se =
        .stdoutMismatch exp (run c).stdout) ∧
    (readStdin fileRead sp = .ok c →
      checkStdout fileRead (run c).stdout so = .ok () →
      checkStderr fileRead parse (run c).stderr (some pe) =
        .error (.stderrMismatch r) →
      run_simple_test fileRead parse (some run) sp so (some pe) =
        .stderrMismatch r) := by
  intro fileRead parse run sp c so po pe exp se r
  constructor
  · intro h1 h2 h3
    simp [run_simple_test, h1, checkStdout, h2, h3]
  · intro h1 h2 h3
    simp [run_simple_test, h1, h2, h3]

/-- Witness for `c5_stdout_before_stderr`: a program printing `x` against a
stdout fixture `5` fails at the stdout stage even though a diagnostic
fixture is also requested, and a diagnostic mismatch is reported when the
stdout stage is absent. -/
theorem c5_witness :
    (readStdin (fun _ => some "5") none = .ok none ∧
      ((fun _ : Option String => (⟨"x", "0", 0⟩ : ProcResult)) none).stdout
        ≠ "5" ∧
      run_simple_test (fun _ => some "5") (fun _ => some (.int 0))
        (some fun _ => ⟨"x", "0", 0⟩) none (some "o.txt") (some "e.json") =
        .stdoutMismatch "5" "x") ∧
    (checkStdout (fun _ => some "5") "x" none = .ok () ∧
      run_simple_test (fun _ => some "5") (fun s => some (.int s.length))
        (some fun _ => ⟨"x", "9876", 0⟩) none none (some "e.json") =
        .stderrMismatch (.valueMismatch (.int 1) (.int 4))) := by
  refine ⟨⟨rfl, ?hne, ?h1⟩, rfl, ?h2⟩
  case hne => decide
  case h1 =>
    exact (c5_stdout_before_stderr (fun _ => some "5") (fun _ => some (.int 0))
      (fun _ => ⟨"x", "0", 0⟩) none none (some "e.json") "o.txt" "p" "5"
      (some "e.json") (.valueMismatch (.int 1) (.int 4))).1 rfl rfl (by decide)
  case h2 =>
    exact (c5_stdout_before_stderr (fun _ => some "5")
      (fun s => some (.int s.length)) (fun _ => ⟨"x", "9876", 0⟩) none none
      none "o.txt" "e.json" "5" none
      (.valueMismatch (.int 1) (.int 4))).2 rfl rfl rfl

/-! ## Claim C6 -/

/-- C6: in duel mode a spawn failure of either the Judge (interactor) or the
Solution — both spawns sit inside the `try` block whose `FileNotFoundError`
handler exits — produces the launch-failure outcome with exit status 1, for
every fixture oracle and every captured diagnostic text: no structural
comparison is attempted. -/
theorem c6_launch_failure_aborts :
    ∀ (fileRead : String → Option String) (parse : String → Option Json)
      (judgeLaunches solutionLaunches : Bool) (interactorStderr : String)
      (eerr : Option String),
    judgeLaunches = false ∨ solutionLaunches = false →
    run_interactive_test fileRead parse judgeLaunches solutionLaunches
      interactorStderr eerr = .launchFailed ∧
    exitCode (run_interactive_test fileRead parse judgeLaunches
      solutionLaunches interactorStderr eerr) = 1 := by
  intro fileRead parse jl sl istderr eerr h
  rcases h with h | h <;> subst h <;>
    simp [run_interactive_test, exitCode]

/-- Witness for `c6_launch_failure_aborts`: a missing Judge executable with
a present diagnostic fixture. -/
theorem c6_witness :
    ((false = false ∨ true = false) ∧
      run_interactive_test (fun _ => some "x") (fun _ => some (.int 1)) false
        true "anything" (some "e.json") = .launchFailed ∧
      exitCode (run_interactive_test (fun _ => some "x")
        (fun _ => some (.int 1)) false true "anything" (some "e.json")) = 1) :=
  ⟨Or.inl rfl,
   c6_launch_failure_aborts (fun _ => some "x") (fun _ => some (.int 1))
     false true "anything" (some "e.json") (Or.inl rfl)⟩

/-! ## Claim C7 -/

/-- The exit status attached to an outcome is `0` exactly at the
`PASSED`-printing exit site. -/
theorem exitCode_zero_iff (o : Outcome) :
    exitCode o = 0 ↔ printsPassed o = true := by
  cases o <;> simp [exitCode, printsPassed]

/-- C7: in both modes the harness terminates with exit status 0 exactly when
it prints `PASSED`; every other exit site — launch failure, missing or
malformed fixture, stdout mismatch, non-JSON stderr, structural mismatch —
exits non-zero. -/
theorem c7_exit_status :
    ∀ (fileRead : String → Option String) (parse : String → Option Json)
      (execute : Option (Option String → ProcResult))
      (sp so se : Option String) (jl sl : Bool) (istderr : String)
      (eerr : Option String),
    (exitCode (run_simple_test fileRead parse execute sp so se) = 0 ↔
      printsPassed (run_simple_test fileRead parse execute sp so se) = true) ∧
    (exitCode (run_interactive_test fileRead parse jl sl istderr eerr) = 0 ↔
      printsPassed (run_interactive_test fileRead parse jl sl istderr eerr)
        = true) :=
  fun _ _ _ _ _ _ _ _ _ _ =>
    ⟨exitCode_zero_iff _, exitCode_zero_iff _⟩

/-! ## Claim C9 -/

/-- C9: the standalone runner never examines the exit status of the command
under test: two command behaviours with identical captured stdout and stderr
(but arbitrarily different return codes) produce identical outcomes, and a
run whose requested comparisons all succeed prints `PASSED` and exits 0 no
matter what the command's return code was. -/
theorem c9_returncode_ignored :
    ∀ (fileRead : String → Option String) (parse : String → Option Json)
      (f g : Option String → ProcResult) (sp so se : Option String),
    ((∀ c, (f c).stdout = (g c).stdout ∧ (f c).stderr = (g c).stderr) →
      run_simple_test fileRead parse (some f) sp so se =
        run_simple_test fileRead parse (some g) sp so se) ∧
    (∀ c, readStdin fileRead sp = .ok c →
      checkStdout fileRead (f c).stdout so = .ok () →
      checkStderr fileRead parse (f c).stderr se = .ok () →
      run_simple_test fileRead parse (some f) sp so se = .passed ∧
      exitCode (run_simple_test fileRead parse (some f) sp so se) = 0) := by
  intro fileRead parse f g sp so se
  constructor
  · intro h
    unfold run_simple_test
    cases hs : readStdin fileRead sp with
    | error o => rfl
    | ok c => simp [(h c).1, (h c).2]
  · intro c h1 h2 h3
    constructor
    · simp [run_simple_test, h1, h2, h3]
    · simp [run_simple_test, h1, h2, h3, exitCode]

/-- Witness for `c9_returncode_ignored`: a command exiting with status 42
and one exiting 0, same captured text; with no fixtures requested the run
passes. -/
theorem c9_witness :
    ((∀ c : Option String,
        ((fun _ => (⟨"out", "err", 42⟩ : ProcResult)) c).stdout =
          ((fun _ => (⟨"out", "err", 0⟩ : ProcResult)) c).stdout ∧
        ((fun _ => (⟨"out", "err", 42⟩ : ProcResult)) c).stderr =
          ((fun _ => (⟨"out", "err", 0⟩ : ProcResult)) c).stderr) ∧
      run_simple_test (fun _ => none) (fun _ => none)
        (some fun _ => ⟨"out", "err", 42⟩) none none none =
        run_simple_test (fun _ => none) (fun _ => none)
        (some fun _ => ⟨"out", "err", 0⟩) none none none) ∧
    (run_simple_test (fun _ => none) (fun _ => none)
        (some fun _ => ⟨"out", "err", 42⟩) none none none = .passed ∧
      exitCode (run_simple_test (fun _ => none) (fun _ => none)
        (some fun _ => ⟨"out", "err", 42⟩) none none none) = 0) :=
  ⟨⟨fun _ => ⟨rfl, rfl⟩,
    (c9_returncode_ignored (fun _ => none) (fun _ => none)
      (fun _ => ⟨"out", "err", 42⟩) (fun _ => ⟨"out", "err", 0⟩)
      none none none).1 (fun _ => ⟨rfl, rfl⟩)⟩,
   (c9_returncode_ignored (fun _ => none) (fun _ => none)
     (fun _ => ⟨"out", "err", 42⟩) (fun _ => ⟨"out", "err", 0⟩)
     none none none).2 none rfl rfl rfl⟩

/-! ## Claim C10 -/

/-- C10: scalar comparison crosses scalar kinds by numeric value, because
the source compares with Python `==` under which `bool` is an `int` and
ints equal floats of the same value: any two scalars with the same numeric
value match, in particular expected `true` against actual `1` and expected
`1` against actual `1.0`. -/
theorem c10_untyped_numeric_equality :
    (∀ (e a : Json) (q : Rat), pyNum e = some q → pyNum a = some q →
      compare_json e a = none) ∧
    compare_json (.bool true) (.int 1) = none ∧
    compare_json (.int 1) (.float 1) = none := by
  refine ⟨?_, rfl, rfl⟩
  intro e a q he ha
  cases e <;> cases a <;>
    simp_all [compare_json, scalarPyEq, pyNum, beq_iff_eq]

/-- Witness for `c10_untyped_numeric_equality` at expected `true`, actual
`1`. -/
theorem c10_witness :
    pyNum (Json.bool true) = some 1 ∧ pyNum (Json.int 1) = some 1 ∧
    compare_json (.bool true) (.int 1) = none := by
  refine ⟨rfl, ?h1, ?h2⟩
  case h1 => norm_num [pyNum]
  case h2 =>
    exact c10_untyped_numeric_equality.1 (.bool true) (.int 1) 1 rfl
      (by norm_num [pyNum])

/-! ## Claim C8: lemmas about the include flattener -/

/-- The number of files not yet in the processed set: the measure that
shrinks at every nested expansion of `process_file`. -/
def mFree {n : Nat} (s : List (Fin n)) : Nat :=
  (Finset.univ.filter (fun x : Fin n => x ∉ s)).card

/-- There are at most `n` unprocessed files. -/
theorem mFree_le {n : Nat} (s : List (Fin n)) : mFree s ≤ n := by
  calc (Finset.univ.filter (fun x : Fin n => x ∉ s)).card
      ≤ (Finset.univ : Finset (Fin n)).card := Finset.card_filter_le _ _
    _ = n := by simp

/-- Growing the processed set cannot increase the measure. -/
theorem mFree_anti {n : Nat} {s t : List (Fin n)} (h : ∀ x ∈ s, x ∈ t) :
    mFree t ≤ mFree s := by
  apply Finset.card_le_card
  intro x hx
  simp only [Finset.mem_filter, Finset.mem_univ, true_and] at hx ⊢
  intro hxs
  exact hx (h x hxs)

/-- Recording a genuinely new file strictly shrinks the measure. -/
theorem mFree_cons_lt {n : Nat} {s : List (Fin n)} {f : Fin n} (hf : f ∉ s) :
    mFree (f :: s) < mFree s := by
  apply Finset.card_lt_card
  constructor
  · intro x hx
    simp only [Finset.mem_filter, Finset.mem_univ, true_and,
      List.mem_cons] at hx ⊢
    intro h2
    exact hx (Or.inr h2)
  · intro hsub
    have hmem : f ∈ Finset.univ.filter (fun x : Fin n => x ∉ s) := by
      simp [hf]
    have h2 := hsub hmem
    simp [List.mem_cons] at h2

/-- Along the line fold, the processed set only grows and stays duplicate
free, provided the recursive call does so. -/
theorem foldl_state_inv {n : Nat} (resolve : String → Option (Fin n))
    (rec : Fin n → List (Fin n) → List String × List (Fin n))
    (hrec : ∀ f st, (∀ x ∈ st, x ∈ (rec f st).2) ∧
      (st.Nodup → (rec f st).2.Nodup)) :
    ∀ (lines : List SrcLine) (acc : List String × Bool × List (Fin n)),
    (∀ x ∈ acc.2.2, x ∈ (lines.foldl (embedStep resolve rec) acc).2.2) ∧
    (acc.2.2.Nodup → (lines.foldl (embedStep resolve rec) acc).2.2.Nodup) := by
  intro lines
  induction lines with
  | nil => intro acc; exact ⟨fun _ hx => hx, id⟩
  | cons l rest ih =>
    intro acc
    obtain ⟨out, ig, st⟩ := acc
    simp only [List.foldl_cons]
    have hstep : (∀ x ∈ st, x ∈ (embedStep resolve rec (out, ig, st) l).2.2) ∧
        (st.Nodup → (embedStep resolve rec (out, ig, st) l).2.2.Nodup) := by
      cases l with
      | ignoreStart => exact ⟨fun _ hx => hx, id⟩
      | ignoreEnd => exact ⟨fun _ hx => hx, id⟩
      | plain text =>
        cases ig with
        | false => exact ⟨fun _ hx => hx, id⟩
        | true => exact ⟨fun _ hx => hx, id⟩
      | includeLine header raw =>
        cases ig with
        | true => exact ⟨fun _ hx => hx, id⟩
        | false =>
          by_cases hh : header ∈ ignoreHeaders
          · constructor
            · intro x hx; simpa [embedStep, hh] using hx
            · intro hnd; simpa [embedStep, hh] using hnd
          · cases hres : resolve header with
            | none =>
              constructor
              · intro x hx; simpa [embedStep, hh, hres] using hx
              · intro hnd; simpa [embedStep, hh, hres] using hnd
            | some f =>
              constructor
              · intro x hx
                simpa [embedStep, hh, hres] using (hrec f st).1 x hx
              · intro hnd
                simpa [embedStep, hh, hres] using (hrec f st).2 hnd
    have hrest := ih (embedStep resolve rec (out, ig, st) l)
    exact ⟨fun x hx => hrest.1 x (hstep.1 x hx),
      fun hnd => hrest.2 (hstep.2 hnd)⟩

/-- `process_file` only grows the processed set, and never records the same
file twice. -/
theorem process_file_inv {n : Nat} (resolve : String → Option (Fin n))
    (contents : Fin n → List SrcLine) :
    ∀ (fuel : Nat) (f : Fin n) (s : List (Fin n)),
    (∀ x ∈ s, x ∈ (process_file resolve contents fuel f s).2) ∧
    (s.Nodup → (process_file resolve contents fuel f s).2.Nodup) := by
  intro fuel
  induction fuel with
  | zero => intro f s; exact ⟨fun _ hx => hx, id⟩
  | succ k ih =>
    intro f s
    by_cases hf : f ∈ s
    · simp only [process_file, if_pos hf]
      exact ⟨fun _ hx => hx, id⟩
    · simp only [process_file, if_neg hf]
      have hfold := foldl_state_inv resolve (process_file resolve contents k)
        (fun f2 st => ih f2 st) (contents f) ([], false, f :: s)
      exact ⟨fun x hx => hfold.1 x (List.mem_cons_of_mem f hx),
        fun hnd => hfold.2 (List.nodup_cons.mpr ⟨hf, hnd⟩)⟩

/-- Two recursive calls that agree on every state satisfying a preserved
predicate make the line fold agree. -/
theorem foldl_congr {n : Nat} (resolve : String → Option (Fin n))
    (rec1 rec2 : Fin n → List (Fin n) → List String × List (Fin n))
    (P : List (Fin n) → Prop)
    (hagree : ∀ f st, P st → rec1 f st = rec2 f st)
    (hpres : ∀ f st, P st → P (rec1 f st).2) :
    ∀ (lines : List SrcLine) (acc : List String × Bool × List (Fin n)),
    P acc.2.2 →
    lines.foldl (embedStep resolve rec1) acc =
      lines.foldl (embedStep resolve rec2) acc := by
  intro lines
  induction lines with
  | nil => intro _ _; rfl
  | cons l rest ih =>
    intro acc hP
    obtain ⟨out, ig, st⟩ := acc
    simp only [List.foldl_cons]
    have hstep : embedStep resolve rec1 (out, ig, st) l =
        embedStep resolve rec2 (out, ig, st) l ∧
        P (embedStep resolve rec1 (out, ig, st) l).2.2 := by
      cases l with
      | ignoreStart => exact ⟨rfl, hP⟩
      | ignoreEnd => exact ⟨rfl, hP⟩
      | plain text =>
        cases ig with
        | false => exact ⟨rfl, hP⟩
        | true => exact ⟨rfl, hP⟩
      | includeLine header raw =>
        cases ig with
        | true => exact ⟨rfl, hP⟩
        | false =>
          by_cases hh : header ∈ ignoreHeaders
          · constructor
            · simp [embedStep, hh]
            · simpa [embedStep, hh] using hP
          · cases hres : resolve header with
            | none =>
              constructor
              · simp [embedStep, hh, hres]
              · simpa [embedStep, hh, hres] using hP
            | some f =>
              constructor
              · simp [embedStep, hh, hres, hagree f st hP]
              · simpa [embedStep, hh, hres] using hpres f st hP
    calc rest.foldl (embedStep resolve rec1)
            (embedStep resolve rec1 (out, ig, st) l)
        = rest.foldl (embedStep resolve rec2)
            (embedStep resolve rec1 (out, ig, st) l) := ih _ hstep.2
      _ = rest.foldl (embedStep resolve rec2)
            (embedStep resolve rec2 (out, ig, st) l) := by rw [hstep.1]

/-- One extra unit of fuel changes nothing once the fuel exceeds the number
of unprocessed files. -/
theorem process_file_fuel_succ {n : Nat} (resolve : String → Option (Fin n))
    (contents : Fin n → List SrcLine) :
    ∀ (fuel : Nat) (f : Fin n) (s : List (Fin n)), mFree s < fuel →
    process_file resolve contents fuel f s =
      process_file resolve contents (fuel + 1) f s := by
  intro fuel
  induction fuel with
  | zero => intro f s h; exact absurd h (Nat.not_lt_zero _)
  | succ k ih =>
    intro f s h
    by_cases hf : f ∈ s
    · simp only [process_file, if_pos hf]
    · simp only [process_file, if_neg hf]
      have hinit : mFree (f :: s) < k := by
        have h1 := mFree_cons_lt hf
        omega
      have hcong := foldl_congr resolve (process_file resolve contents k)
        (process_file resolve contents (k + 1)) (fun st => mFree st < k)
        (fun f2 st hst => ih f2 st hst)
        (fun f2 st hst =>
          lt_of_le_of_lt
            (mFree_anti (process_file_inv resolve contents k f2 st).1) hst)
        (contents f) ([], false, f :: s) hinit
      exact congrArg (fun r => (r.1, r.2.2)) hcong

/-- Any two fuels above the number of unprocessed files give the same
answer: the recursion, run with enough fuel, has a fuel-independent result —
it terminates even on cyclic include graphs. -/
theorem process_file_stab {n : Nat} (resolve : String → Option (Fin n))
    (contents : Fin n → List SrcLine) :
    ∀ (fuel1 fuel2 : Nat) (f : Fin n) (s : List (Fin n)),
    mFree s < fuel1 → mFree s < fuel2 →
    process_file resolve contents fuel1 f s =
      process_file resolve contents fuel2 f s := by
  have key : ∀ (d fuel : Nat) (f : Fin n) (s : List (Fin n)),
      mFree s < fuel →
      process_file resolve contents fuel f s =
        process_file resolve contents (fuel + d) f s := by
    intro d
    induction d with
    | zero => intro fuel f s _; rfl
    | succ m ih =>
      intro fuel f s h
      rw [ih fuel f s h]
      have h2 : mFree s < fuel + m := by omega
      rw [process_file_fuel_succ resolve contents (fuel + m) f s h2]
      rfl
  intro fuel1 fuel2 f s h1 h2
  rcases Nat.le_total fuel1 fuel2 with hle | hle
  · have heq : fuel2 = fuel1 + (fuel2 - fuel1) := by omega
    rw [heq]
    exact key (fuel2 - fuel1) fuel1 f s h1
  · have heq : fuel1 = fuel2 + (fuel1 - fuel2) := by omega
    rw [heq]
    exact (key (fuel1 - fuel2) fuel2 f s h2).symm

/-- C8: the include flattener expands each distinct file at most once per
run.  First conjunct: a file already processed contributes no output lines
when included again (the source's `return ""` guard) and leaves the state
untouched.  Second conjunct: the processed list never records a file twice,
so no file's content is inlined more than once in a run.  Third conjunct:
on every include graph — cyclic ones included — any two fuel bounds above
the number of files give identical results, i.e. the recursion terminates
with a fuel-independent answer. -/
theorem c8_expand_once :
    ∀ (n : Nat) (resolve : String → Option (Fin n))
      (contents : Fin n → List SrcLine) (f : Fin n) (s : List (Fin n))
      (fuel fuel1 fuel2 : Nat),
    (f ∈ s → process_file resolve contents fuel f s = ([], s)) ∧
    (s.Nodup → (process_file resolve contents fuel f s).2.Nodup) ∧
    (n < fuel1 → n < fuel2 →
      process_file resolve contents fuel1 f s =
        process_file resolve contents fuel2 f s) := by
  intro n resolve contents f s fuel fuel1 fuel2
  refine ⟨?_, (process_file_inv resolve contents fuel f s).2, ?_⟩
  · intro hf
    cases fuel with
    | zero => rfl
    | succ k => simp [process_file, hf]
  · intro h1 h2
    exact process_file_stab resolve contents fuel1 fuel2 f s
      (lt_of_le_of_lt (mFree_le s) h1) (lt_of_le_of_lt (mFree_le s) h2)

/-- The two-file cyclic include graph used as the concrete witness for the
flattener: `a.h` includes `b.h` and `b.h` includes `a.h`. -/
def cyclicResolve : String → Option (Fin 2) :=
  fun h => if h == "a.h" then some 0 else if h == "b.h" then some 1 else none

/-- Contents of the two files of the cyclic witness graph. -/
def cyclicContents : Fin 2 → List SrcLine :=
  fun f =>
    if f == 0 then [.plain "A", .includeLine "b.h" "#in b"]
    else [.plain "B", .includeLine "a.h" "#in a"]

/-- Witness for `c8_expand_once` on the cyclic two-file graph. -/
theorem c8_witness :
    ((0 : Fin 2) ∈ [(0 : Fin 2)] ∧
      process_file cyclicResolve cyclicContents 3 0 [0] = ([], [0])) ∧
    ([(1 : Fin 2)].Nodup ∧
      (process_file cyclicResolve cyclicContents 3 0 [1]).2.Nodup) ∧
    (2 < 3 ∧ 2 < 9 ∧
      process_file cyclicResolve cyclicContents 3 0 [] =
        process_file cyclicResolve cyclicContents 9 0 []) :=
  ⟨⟨by decide,
    (c8_expand_once 2 cyclicResolve cyclicContents 0 [0] 3 3 9).1 (by decide)⟩,
   ⟨by decide,
    (c8_expand_once 2 cyclicResolve cyclicContents 0 [1] 3 3 9).2.1
      (by decide)⟩,
   by decide, by decide,
   (c8_expand_once 2 cyclicResolve cyclicContents 0 [] 3 3 9).2.2 (by decide)
     (by decide)⟩
